import Mathlib

/-!
Shallow embedding of `pybridge/options_bridge.py` (the yfinance options
bridge): argument clamping, expiration selection, per-record normalization,
chain assembly with the script's exception structure, metrics derivation
(ATM IV, put/call volume statistic, implied move), and the shape of the JSON
document the script prints.

Modelling conventions:
* Python floats coming from the provider are modelled as exact rationals;
  a provider cell is `missing` (absent, `row.get` yields the default `0`),
  `num q` (a finite number), `nan` (pandas NaN: `pd.notna` is false and
  `int()` raises), or `bad` (a non-numeric value on which `float()`/`int()`
  raise).
* `round(x, n)` is Python's round-half-to-even at `n` decimal digits,
  modelled exactly on rationals.
* An exception raised while processing a record or fetching a chain is the
  `Bool` flag threaded through `procSide`/`procExpiries`: the script wraps
  the whole fetch-and-normalize loop in a single `try/except: pass`, so a
  raised exception keeps the rows appended so far and abandons the rest of
  the loop.
* Expiration timestamps (midnight UTC) are rationals (epoch seconds); the
  script sorts their ISO-8601 renderings lexicographically, which for this
  fixed format agrees with the numeric order used here.
-/

set_option allowUnsafeReducibility true in
attribute [semireducible] Rat.add Rat.mul Rat.div Rat.sub Rat.neg Rat.inv

deriving instance DecidableEq for Except

namespace OptionsBridge

/-- Python's `round` to an integer: round half to even (banker's rounding),
modelled exactly on rationals. -/
def roundHalfEven (q : ℚ) : ℤ :=
  if q - ⌊q⌋ < 1/2 then ⌊q⌋
  else if 1/2 < q - ⌊q⌋ then ⌊q⌋ + 1
  else if ⌊q⌋ % 2 = 0 then ⌊q⌋ else ⌊q⌋ + 1

/-- Python's `round(x, n)`: round to `n` decimal digits, half to even. -/
def rnd (n : ℕ) (q : ℚ) : ℚ :=
  (roundHalfEven (q * (10 : ℚ) ^ n) : ℚ) / (10 : ℚ) ^ n

/-- Python's `int()` applied to a finite float: truncation toward zero. -/
def pyTrunc (q : ℚ) : ℤ := if 0 ≤ q then ⌊q⌋ else ⌈q⌉

/-- `round(x, 2) if x > 0 else 0`, the script's emission rule for
`bid`, `ask` and `lastPrice`. -/
def posRnd2 (q : ℚ) : ℚ := if 0 < q then rnd 2 q else 0

/-- One cell of a raw provider record. `missing`: the key is absent and
`row.get(key, 0)` yields `0`. `num q`: a finite numeric value. `nan`:
pandas NaN (`pd.notna` false; `int()` raises, `float()` yields NaN).
`bad`: a non-numeric value on which both `float()` and `int()` raise. -/
inductive RawField
  | missing
  | num (q : ℚ)
  | nan
  | bad
deriving DecidableEq, Repr

/-- One raw option record (one row of `opt_chain.calls` or `opt_chain.puts`). -/
structure RawRecord where
  impliedVolatility : RawField := .missing
  openInterest : RawField := .missing
  strike : RawField := .missing
  volume : RawField := .missing
  bid : RawField := .missing
  ask : RawField := .missing
  lastPrice : RawField := .missing
deriving DecidableEq, Repr

/-- `float(row.get(key, 0))`: `.ok none` is the NaN float (it fails every
`>` comparison), `.error ()` a raised exception. -/
def pyFloatD : RawField → Except Unit (Option ℚ)
  | .missing => .ok (some 0)
  | .num q => .ok (some q)
  | .nan => .ok none
  | .bad => .error ()

/-- `int(row.get(key, 0))`: `int(nan)` raises ValueError. -/
def pyIntD : RawField → Except Unit ℤ
  | .missing => .ok 0
  | .num q => .ok (pyTrunc q)
  | .nan => .error ()
  | .bad => .error ()

/-- `int(row.get(key, 0)) if pd.notna(row.get(key)) else 0`
(the script's `volume` conversion). -/
def pyNotnaInt : RawField → Except Unit ℤ
  | .missing => .ok 0
  | .num q => .ok (pyTrunc q)
  | .nan => .ok 0
  | .bad => .error ()

/-- `float(row.get(key, 0)) if pd.notna(row.get(key)) else 0`
(the script's `bid`/`ask`/`lastPrice` conversion). -/
def pyNotnaFloat : RawField → Except Unit ℚ
  | .missing => .ok 0
  | .num q => .ok q
  | .nan => .ok 0
  | .bad => .error ()

/-- `x > 0` on a Python float that may be NaN (`none`): NaN fails it. -/
def gtZero : Option ℚ → Bool
  | none => false
  | some q => decide (0 < q)

/-- The side of an option contract (the `"type"` field of an output row). -/
inductive Side
  | call
  | put
deriving DecidableEq, Repr

/-- One validated output row, as appended to the script's `rows` list. -/
structure CanonRow where
  expiryUTC : ℚ
  ttmDays : ℚ
  strike : ℚ
  side : Side
  iv : ℚ
  oi : ℤ
  volume : ℤ
  bid : ℚ
  ask : ℚ
  lastPrice : ℚ
deriving DecidableEq, Repr

/-- The per-record body of the script's processing loop: field conversions,
then the acceptance filter
`iv > 0 and oi >= 0 and ttm_days > 0 and ttm_days <= max_days and strike > 0`.
`.error ()`: a conversion raised (the exception escapes the loop);
`.ok none`: the record is filtered out; `.ok (some row)`: the row appended.
All conversion failures raise the same way, so evaluating the conversions
jointly is equivalent to Python's left-to-right order. -/
def normalizeRecord (maxDays : ℤ) (expiryUTC ttm : ℚ) (side : Side)
    (r : RawRecord) : Except Unit (Option CanonRow) :=
  match pyFloatD r.impliedVolatility, pyIntD r.openInterest,
      pyFloatD r.strike, pyNotnaInt r.volume, pyNotnaFloat r.bid,
      pyNotnaFloat r.ask, pyNotnaFloat r.lastPrice with
  | .ok iv, .ok oi, .ok strike, .ok volume, .ok bid, .ok ask, .ok lastPrice =>
    if gtZero iv && decide (0 ≤ oi) && decide (0 < ttm)
        && decide (ttm ≤ (maxDays : ℚ)) && gtZero strike then
      .ok (some {
        expiryUTC := expiryUTC
        ttmDays := rnd 2 ttm
        strike := rnd 2 (strike.getD 0)
        side := side
        iv := rnd 4 (iv.getD 0)
        oi := oi
        volume := volume
        bid := posRnd2 bid
        ask := posRnd2 ask
        lastPrice := posRnd2 lastPrice })
    else
      .ok none
  | _, _, _, _, _, _, _ => .error ()

/-- `num_expiries = min(max(num_expiries, 3), 8)`. -/
def clampExpiries (n : ℤ) : ℤ := min (max n 3) 8

/-- Time to maturity in days: `(expiry_utc - now).total_seconds() / 86400`,
with both instants as epoch seconds. -/
def ttmOf (now e : ℚ) : ℚ := (e - now) / 86400

/-- The selection filter `ttm_days > 0 and ttm_days <= max_days`. -/
def validExp (now : ℚ) (maxDays : ℤ) (e : ℚ) : Bool :=
  decide (0 < ttmOf now e) && decide (ttmOf now e ≤ (maxDays : ℚ))

/-- The `valid_expiries` accumulation loop: append each valid candidate and
break as soon as `len(valid_expiries) >= num_expiries`. -/
def selectLoop (valid : ℚ → Bool) (n : ℕ) : List ℚ → List ℚ → List ℚ
  | acc, [] => acc.reverse
  | acc, e :: rest =>
    if valid e then
      if n ≤ (e :: acc).length then (e :: acc).reverse
      else selectLoop valid n (e :: acc) rest
    else selectLoop valid n acc rest

/-- Expiration selection: scan `expiries[:num_expiries * 2]` in provider
order, keep the valid ones, stop once `n` are collected. -/
def selectExpiries (now : ℚ) (maxDays : ℤ) (n : ℕ) (expiries : List ℚ) :
    List ℚ :=
  selectLoop (validExp now maxDays) n [] (expiries.take (2 * n))

/-- The market-data provider as consumed by the script: the expiration list
and, per expiration, the option chain `(calls, puts)`; `none` models a
`ticker.option_chain` call that raises. -/
structure Provider where
  expiries : List ℚ
  fetch : ℚ → Option (List RawRecord × List RawRecord)

/-- Process one side's records in order. The `Bool` is the exception flag:
`true` means a conversion raised, keeping the rows accepted before the
raising record and dropping everything after it. -/
def procSide (maxDays : ℤ) (expiryUTC ttm : ℚ) (side : Side) :
    List RawRecord → List CanonRow × Bool
  | [] => ([], false)
  | r :: rest =>
    match normalizeRecord maxDays expiryUTC ttm side r with
    | .error _ => ([], true)
    | .ok none => procSide maxDays expiryUTC ttm side rest
    | .ok (some row) =>
      let p := procSide maxDays expiryUTC ttm side rest
      (row :: p.1, p.2)

/-- The per-expiration fetch loop. The whole loop runs inside one
`try/except: pass`, so a failed `option_chain` fetch (`fetch e = none`) or
a record conversion that raises ends the loop: rows accumulated so far are
kept and no later expiration is processed. The redundant safety re-check
`if ttm_days <= 0 or ttm_days > max_days: continue` is kept. -/
def procExpiries (now : ℚ) (maxDays : ℤ) (P : Provider) :
    List ℚ → List CanonRow × Bool
  | [] => ([], false)
  | e :: rest =>
    if decide (ttmOf now e ≤ 0) || decide ((maxDays : ℚ) < ttmOf now e) then
      procExpiries now maxDays P rest
    else
      match P.fetch e with
      | none => ([], true)
      | some chain =>
        let pc := procSide maxDays e (ttmOf now e) .call chain.1
        if pc.2 then (pc.1, true)
        else
          let pp := procSide maxDays e (ttmOf now e) .put chain.2
          if pp.2 then (pc.1 ++ pp.1, true)
          else
            let pr := procExpiries now maxDays P rest
            (pc.1 ++ pp.1 ++ pr.1, pr.2)

/-- The full `rows` list produced by the script for a provider. -/
def assembleRows (now : ℚ) (maxDays : ℤ) (n : ℕ) (P : Provider) :
    List CanonRow :=
  (procExpiries now maxDays P (selectExpiries now maxDays n P.expiries)).1

/-- Insert into an ascending list, keeping it ascending. -/
def insertAsc (x : ℚ) : List ℚ → List ℚ
  | [] => [x]
  | y :: ys => if x ≤ y then x :: y :: ys else y :: insertAsc x ys

/-- Ascending insertion sort (the effect of Python's `sorted` on the
distinct values at hand). -/
def sortAsc (l : List ℚ) : List ℚ := l.foldr insertAsc []

/-- Distinct values in order of first occurrence, `seen` accumulating. -/
def dedupFirstAux : List ℚ → List ℚ → List ℚ
  | _, [] => []
  | seen, x :: xs =>
    if x ∈ seen then dedupFirstAux seen xs
    else x :: dedupFirstAux (x :: seen) xs

/-- Distinct values of a list in order of first occurrence. -/
def dedupFirst (l : List ℚ) : List ℚ := dedupFirstAux [] l

/-- Python's `min(b :: l, key=key)`: the first element attaining the
minimal key (the running best is replaced only on a strict decrease). -/
def minByKey (key : ℚ → ℚ) : ℚ → List ℚ → ℚ
  | b, [] => b
  | b, x :: rest =>
    if key x < key b then minByKey key x rest else minByKey key b rest

/-- `sorted(set(r['expiryUTC'] for r in rows))[0]`: the nearest expiration
present in the data (the script sorts ISO strings; for this fixed format
that is the numeric order). -/
def nearestExpiry (rows : List CanonRow) : ℚ :=
  (sortAsc (dedupFirst (rows.map (·.expiryUTC)))).headD 0

/-- The rows of one expiration. -/
def expiryRowsOf (rows : List CanonRow) (e : ℚ) : List CanonRow :=
  rows.filter (fun r => decide (r.expiryUTC = e))

/-- `strikes = sorted(set(...)); atm_strike = min(strikes, key=lambda s:
abs(s - spot))`: the code's ATM strike. -/
def atmStrikeOf (spot : ℚ) (expiryRows : List CanonRow) : Option ℚ :=
  match sortAsc (dedupFirst (expiryRows.map (·.strike))) with
  | [] => none
  | s :: rest => some (minByKey (fun x => |x - spot|) s rest)

/-- Modelled from the spec's words (§4.4 step 2), for comparison with
`atmStrikeOf`: minimize `abs(strike - spot)` over the distinct strikes
with ties broken by order of FIRST OCCURRENCE in `expiryRows`. -/
def atmStrikeSpec (spot : ℚ) (expiryRows : List CanonRow) : Option ℚ :=
  match dedupFirst (expiryRows.map (·.strike)) with
  | [] => none
  | s :: rest => some (minByKey (fun x => |x - spot|) s rest)

/-- `next((r for r in expiry_rows if r['strike'] == s and r['type'] == side),
None)`. -/
def findRow (expiryRows : List CanonRow) (s : ℚ) (side : Side) :
    Option CanonRow :=
  expiryRows.find? (fun r => decide (r.strike = s) && decide (r.side = side))

/-- The `atm_iv` object of the output document. -/
structure AtmIvVal where
  percent : ℚ
  decimal : ℚ
  strike : ℚ
deriving DecidableEq, Repr

/-- The ATM IV computation from the call row and put row found at the ATM
strike: both present averages their `iv`, one present uses it alone. -/
def atmIvFrom (atmCall atmPut : Option CanonRow) (s : ℚ) : Option AtmIvVal :=
  match atmCall, atmPut with
  | some c, some p =>
    some { percent := rnd 1 ((c.iv + p.iv) / 2 * 100)
           decimal := rnd 4 ((c.iv + p.iv) / 2)
           strike := s }
  | some c, none =>
    some { percent := rnd 1 (c.iv * 100), decimal := rnd 4 c.iv, strike := s }
  | none, some p =>
    some { percent := rnd 1 (p.iv * 100), decimal := rnd 4 p.iv, strike := s }
  | none, none => none

/-- The `put_call_volume_ratio` object of the output document. -/
structure PcrVal where
  value : ℚ
  window : String
deriving DecidableEq, Repr

/-- `sum(r['volume'] for r in expiry_rows if r['type'] == 'call')`. -/
def callVolOf (expiryRows : List CanonRow) : ℤ :=
  (expiryRows.filter (fun r => decide (r.side = Side.call))).foldl
    (fun a r => a + r.volume) 0

/-- `sum(r['volume'] for r in expiry_rows if r['type'] == 'put')`. -/
def putVolOf (expiryRows : List CanonRow) : ℤ :=
  (expiryRows.filter (fun r => decide (r.side = Side.put))).foldl
    (fun a r => a + r.volume) 0

/-- The put/call volume statistic for the nearest expiration: set only when
`total_call_vol > 0`. -/
def pcrOf (expiryRows : List CanonRow) : Option PcrVal :=
  if 0 < callVolOf expiryRows then
    some { value := rnd 2 ((putVolOf expiryRows : ℚ) / (callVolOf expiryRows : ℚ))
           window := "expiry" }
  else none

/-- The `implied_move` object of the output document. -/
structure MoveVal where
  absMove : ℚ
  pct : ℚ
  expiry : ℚ
deriving DecidableEq, Repr

/-- Per-leg mid price: `(bid+ask)/2` when both positive, else `lastPrice`
when positive, else no usable price. -/
def midOf (r : CanonRow) : Option ℚ :=
  if 0 < r.bid ∧ 0 < r.ask then some ((r.bid + r.ask) / 2)
  else if 0 < r.lastPrice then some r.lastPrice
  else none

/-- The implied-move computation; `if call_mid and put_mid` is Python
truthiness, so a mid of exactly `0` also fails it. -/
def impliedMoveOf (spot e : ℚ) (atmCall atmPut : Option CanonRow) :
    Option MoveVal :=
  match atmCall, atmPut with
  | some c, some p =>
    match midOf c, midOf p with
    | some cm, some pm =>
      if cm ≠ 0 ∧ pm ≠ 0 then
        some { absMove := rnd 2 (cm + pm)
               pct := rnd 1 ((cm + pm) / spot * 100)
               expiry := e }
      else none
    | _, _ => none
  | _, _ => none

/-- The three derived metrics of the output document. -/
structure Metrics where
  atmIv : Option AtmIvVal
  pcr : Option PcrVal
  move : Option MoveVal
deriving DecidableEq, Repr

/-- The metrics block, guarded by `if spot and rows:` (Python truthiness:
a `None` or zero spot, or an empty row list, leaves all three `None`).
The `atmStrikeOf ... = none` branch is unreachable for nonempty `rows`
(the nearest expiration always contributes a row). -/
def computeMetrics (spot : Option ℚ) (rows : List CanonRow) : Metrics :=
  match spot with
  | none => ⟨none, none, none⟩
  | some sp =>
    if sp = 0 then ⟨none, none, none⟩
    else if rows = [] then ⟨none, none, none⟩
    else
      let ne := nearestExpiry rows
      let er := expiryRowsOf rows ne
      match atmStrikeOf sp er with
      | none => ⟨none, pcrOf er, none⟩
      | some s =>
        ⟨atmIvFrom (findRow er s .call) (findRow er s .put) s,
         pcrOf er,
         impliedMoveOf sp ne (findRow er s .call) (findRow er s .put)⟩

/-- One invocation of the script: no symbol argument, an unexpected
exception reaching the outermost handler, or a normal run with the spot
resolved by the provider fallback chain (`none`: no usable spot). -/
inductive RunInput
  | missingSymbol
  | crash
  | normal (spot : Option ℚ) (now : ℚ) (maxDays : ℤ) (n : ℤ) (P : Provider)

/-- One JSON document printed to stdout. `metrics = none` models the
degenerate document `{"spot": ..., "fetched_at": ..., "rows": []}` whose
three metric keys are absent altogether. -/
structure ResultDoc where
  spot : Option ℚ
  rows : List CanonRow
  metrics : Option Metrics

/-- The top-level keys of a printed document. -/
def docKeys (d : ResultDoc) : List String :=
  ["spot", "fetched_at", "rows"] ++
    (match d.metrics with
     | none => []
     | some _ => ["atm_iv", "put_call_volume_ratio", "implied_move"])

/-- `round(spot, 2) if spot else None`: the emitted spot. -/
def emittedSpot : Option ℚ → Option ℚ
  | none => none
  | some q => if q = 0 then none else some (rnd 2 q)

/-- The whole script: exit code and the list of documents printed to
stdout (diagnostics go to stderr and are not modelled). Every path prints
exactly one document and exits 0; only the normal path prints the
six-field document. -/
def runBridge : RunInput → ℕ × List ResultDoc
  | .missingSymbol => (0, [⟨none, [], none⟩])
  | .crash => (0, [⟨none, [], none⟩])
  | .normal spot now maxDays n P =>
    let rows := assembleRows now maxDays (clampExpiries n).toNat P
    (0, [⟨emittedSpot spot, rows, some (computeMetrics spot rows)⟩])

/-! ### Concrete data for witnesses and counterexamples -/

/-- A fully valid raw record. -/
def recStd : RawRecord :=
  { impliedVolatility := .num (1/5), openInterest := .num 10,
    strike := .num 100, volume := .num 5, bid := .num 2, ask := .num (11/5),
    lastPrice := .num 2 }

/-- A provider whose single expiration lies 86.4 seconds (0.001 days) in the
future of `now = 0`. -/
def provC3 : Provider :=
  { expiries := [432/5]
    fetch := fun e => if e = 432/5 then some ([recStd], []) else none }

/-- The row `provC3` produces: its emitted `ttmDays` is `round(0.001, 2) = 0`. -/
def rowC3 : CanonRow :=
  { expiryUTC := 432/5, ttmDays := 0, strike := 100, side := .call,
    iv := 1/5, oi := 10, volume := 5, bid := 2, ask := 11/5, lastPrice := 2 }

/-- A provider with three valid expirations (1, 2 and 3 days out from
`now = 0`) whose chain fetch raises on the second one. -/
def provC1 : Provider :=
  { expiries := [86400, 86400 * 2, 86400 * 3]
    fetch := fun e =>
      if e = 86400 then some ([recStd], [])
      else if e = 86400 * 3 then some ([recStd], [])
      else none }

/-- The row `provC1`'s first expiration produces. -/
def rowC1e1 : CanonRow :=
  { expiryUTC := 86400, ttmDays := 1, strike := 100, side := .call,
    iv := 1/5, oi := 10, volume := 5, bid := 2, ask := 11/5, lastPrice := 2 }

/-- The row `provC1`'s third expiration would produce if it were processed. -/
def rowC1e3 : CanonRow :=
  { expiryUTC := 86400 * 3, ttmDays := 3, strike := 100, side := .call,
    iv := 1/5, oi := 10, volume := 5, bid := 2, ask := 11/5, lastPrice := 2 }

/-- `recStd` with its open interest key absent. -/
def recMissingOI : RawRecord := { recStd with openInterest := .missing }

/-- `recStd` with a NaN open interest cell (`int(nan)` raises). -/
def recNanOI : RawRecord := { recStd with openInterest := .nan }

/-- `recStd` with a zero implied volatility. -/
def recBadIv : RawRecord := { recStd with impliedVolatility := .num 0 }

/-- A minimal valid output row at a given strike and side, one day out. -/
def sampleRow (strikeV : ℚ) (sd : Side) : CanonRow :=
  { expiryUTC := 86400, ttmDays := 1, strike := strikeV, side := sd,
    iv := 1/5, oi := 1, volume := 1, bid := 1, ask := 1, lastPrice := 1 }

/-- The ATM call of the spec's worked example (strike 100, iv 0.20,
bid 2.00, ask 2.20). -/
def rowC9call : CanonRow :=
  { expiryUTC := 86400, ttmDays := 1, strike := 100, side := .call,
    iv := 1/5, oi := 1, volume := 1, bid := 2, ask := 11/5, lastPrice := 0 }

/-- The ATM put of the spec's worked example (strike 100, iv 0.22,
bid 1.80, ask 2.00). -/
def rowC9put : CanonRow :=
  { expiryUTC := 86400, ttmDays := 1, strike := 100, side := .put,
    iv := 11/50, oi := 1, volume := 1, bid := 9/5, ask := 2, lastPrice := 0 }

/-! ### Rounding bounds -/

theorem roundHalfEven_floor_or_succ (q : ℚ) :
    roundHalfEven q = ⌊q⌋ ∨ roundHalfEven q = ⌊q⌋ + 1 := by
  unfold roundHalfEven
  split
  · exact .inl rfl
  split
  · exact .inr rfl
  split
  · exact .inl rfl
  · exact .inr rfl

theorem roundHalfEven_nonneg {q : ℚ} (h : 0 ≤ q) : 0 ≤ roundHalfEven q := by
  have hf : (0 : ℤ) ≤ ⌊q⌋ := Int.floor_nonneg.mpr h
  rcases roundHalfEven_floor_or_succ q with he | he <;> omega

theorem roundHalfEven_le_int {q : ℚ} {z : ℤ} (h : q ≤ (z : ℚ)) :
    roundHalfEven q ≤ z := by
  have hfz : ⌊q⌋ ≤ z := by
    have h2 := Int.floor_le_floor h
    rwa [Int.floor_intCast] at h2
  unfold roundHalfEven
  split
  · exact hfz
  rename_i hlt
  have hfq : (⌊q⌋ : ℚ) < q := by
    have : (1 : ℚ)/2 ≤ q - ⌊q⌋ := le_of_not_lt hlt
    linarith
  have hstrict : ⌊q⌋ < z := by
    have : (⌊q⌋ : ℚ) < (z : ℚ) := lt_of_lt_of_le hfq h
    exact_mod_cast this
  split
  · omega
  split
  · omega
  · omega

theorem rnd_nonneg {n : ℕ} {q : ℚ} (h : 0 ≤ q) : 0 ≤ rnd n q := by
  unfold rnd
  have hp : (0 : ℚ) < (10 : ℚ) ^ n := by positivity
  have h1 : 0 ≤ roundHalfEven (q * (10 : ℚ) ^ n) :=
    roundHalfEven_nonneg (by positivity)
  have h2 : (0 : ℚ) ≤ (roundHalfEven (q * (10 : ℚ) ^ n) : ℚ) := by
    exact_mod_cast h1
  exact div_nonneg h2 (le_of_lt hp)

theorem rnd_le_int {n : ℕ} {q : ℚ} {z : ℤ} (h : q ≤ (z : ℚ)) :
    rnd n q ≤ (z : ℚ) := by
  unfold rnd
  have hp : (0 : ℚ) < (10 : ℚ) ^ n := by positivity
  have h1 : q * (10 : ℚ) ^ n ≤ ((z * 10 ^ n : ℤ) : ℚ) := by
    push_cast
    exact mul_le_mul_of_nonneg_right h (le_of_lt hp)
  have h2 : roundHalfEven (q * (10 : ℚ) ^ n) ≤ z * 10 ^ n :=
    roundHalfEven_le_int h1
  have h3 : (roundHalfEven (q * (10 : ℚ) ^ n) : ℚ) ≤ (z : ℚ) * (10 : ℚ) ^ n := by
    exact_mod_cast h2
  rw [div_le_iff₀ hp]
  exact h3

/-! ### Normalizer characterization -/

theorem normalizeRecord_ok_some {maxDays : ℤ} {expiryUTC ttm : ℚ}
    {side : Side} {r : RawRecord} {row : CanonRow}
    (h : normalizeRecord maxDays expiryUTC ttm side r = .ok (some row)) :
    0 < ttm ∧ ttm ≤ (maxDays : ℚ) ∧ row.ttmDays = rnd 2 ttm := by
  unfold normalizeRecord at h
  split at h
  · split at h
    · rename_i hc
      simp only [Bool.and_eq_true, decide_eq_true_eq] at hc
      simp only [Except.ok.injEq, Option.some.injEq] at h
      subst h
      exact ⟨hc.1.1.2, hc.1.2, rfl⟩
    · simp at h
  · simp at h

theorem procSide_ttm {maxDays : ℤ} {expiryUTC ttm : ℚ} {side : Side}
    (rs : List RawRecord) :
    ∀ row ∈ (procSide maxDays expiryUTC ttm side rs).1,
      0 ≤ row.ttmDays ∧ row.ttmDays ≤ (maxDays : ℚ) := by
  induction rs with
  | nil => intro row hrow; simp [procSide] at hrow
  | cons r rest ih =>
    intro row hrow
    unfold procSide at hrow
    cases hn : normalizeRecord maxDays expiryUTC ttm side r with
    | error e => rw [hn] at hrow; simp at hrow
    | ok o =>
      cases o with
      | none => rw [hn] at hrow; exact ih row hrow
      | some row' =>
        rw [hn] at hrow
        simp only [List.mem_cons] at hrow
        rcases hrow with rfl | hrow
        · obtain ⟨h1, h2, h3⟩ := normalizeRecord_ok_some hn
          rw [h3]
          exact ⟨rnd_nonneg (le_of_lt h1), rnd_le_int h2⟩
        · exact ih row hrow

theorem procExpiries_ttm {now : ℚ} {maxDays : ℤ} {P : Provider}
    (es : List ℚ) :
    ∀ row ∈ (procExpiries now maxDays P es).1,
      0 ≤ row.ttmDays ∧ row.ttmDays ≤ (maxDays : ℚ) := by
  induction es with
  | nil => intro row hrow; simp [procExpiries] at hrow
  | cons e rest ih =>
    intro row hrow
    unfold procExpiries at hrow
    split at hrow
    · exact ih row hrow
    · cases hf : P.fetch e with
      | none => rw [hf] at hrow; simp at hrow
      | some chain =>
        rw [hf] at hrow
        simp only at hrow
        split at hrow
        · exact procSide_ttm chain.1 row hrow
        · split at hrow
          · rw [List.mem_append] at hrow
            rcases hrow with hrow | hrow
            · exact procSide_ttm chain.1 row hrow
            · exact procSide_ttm chain.2 row hrow
          · rw [List.mem_append, List.mem_append] at hrow
            rcases hrow with (hrow | hrow) | hrow
            · exact procSide_ttm chain.1 row hrow
            · exact procSide_ttm chain.2 row hrow
            · exact ih row hrow

theorem normalizeRecord_ok_some_parts {maxDays : ℤ} {expiryUTC ttm : ℚ}
    {side : Side} {r : RawRecord} {row : CanonRow}
    (h : normalizeRecord maxDays expiryUTC ttm side r = .ok (some row)) :
    ∃ iv strike, pyFloatD r.impliedVolatility = .ok iv ∧
      pyFloatD r.strike = .ok strike ∧
      gtZero iv = true ∧ gtZero strike = true := by
  unfold normalizeRecord at h
  split at h
  · rename_i iv oi strike volume bid ask lastPrice hiv hoi hstrike hvol hbid hask hlast
    split at h
    · rename_i hc
      simp only [Bool.and_eq_true, decide_eq_true_eq] at hc
      exact ⟨iv, strike, hiv, hstrike, hc.1.1.1.1, hc.2⟩
    · simp at h
  · simp at h

theorem procSide_sound {maxDays : ℤ} {expiryUTC ttm : ℚ} {side : Side}
    (rs : List RawRecord) :
    ∀ row ∈ (procSide maxDays expiryUTC ttm side rs).1,
      ∃ r ∈ rs, normalizeRecord maxDays expiryUTC ttm side r = .ok (some row) := by
  induction rs with
  | nil => intro row hrow; simp [procSide] at hrow
  | cons r rest ih =>
    intro row hrow
    unfold procSide at hrow
    cases hn : normalizeRecord maxDays expiryUTC ttm side r with
    | error e => rw [hn] at hrow; simp at hrow
    | ok o =>
      cases o with
      | none =>
        rw [hn] at hrow
        obtain ⟨r2, hr2, hn2⟩ := ih row hrow
        exact ⟨r2, List.mem_cons_of_mem _ hr2, hn2⟩
      | some row' =>
        rw [hn] at hrow
        simp only [List.mem_cons] at hrow
        rcases hrow with rfl | hrow
        · exact ⟨r, List.mem_cons_self _ _, hn⟩
        · obtain ⟨r2, hr2, hn2⟩ := ih row hrow
          exact ⟨r2, List.mem_cons_of_mem _ hr2, hn2⟩

/-- C8: a record whose implied volatility is absent, non-numeric, NaN or
`≤ 0`, or whose strike parses to a value `≤ 0`, is never accepted (for
either side); and every row a side's processing emits comes from a record
the normalizer accepted, so such a record never appears in `rows`. -/
theorem claim8_theorem (maxDays : ℤ) (expiryUTC ttm : ℚ) (side : Side)
    (r : RawRecord)
    (h : r.impliedVolatility = .missing ∨ r.impliedVolatility = .bad ∨
         r.impliedVolatility = .nan ∨
         (∃ q, r.impliedVolatility = .num q ∧ q ≤ 0) ∨
         r.strike = .missing ∨ (∃ q, r.strike = .num q ∧ q ≤ 0)) :
    (∀ row : CanonRow,
      normalizeRecord maxDays expiryUTC ttm side r ≠ .ok (some row)) ∧
    (∀ rs : List RawRecord, ∀ row ∈ (procSide maxDays expiryUTC ttm side rs).1,
      ∃ r2 ∈ rs,
        normalizeRecord maxDays expiryUTC ttm side r2 = .ok (some row)) := by
  refine ⟨?_, fun rs => procSide_sound rs⟩
  intro row hrow
  obtain ⟨iv, strike, hiv, hstrike, hgiv, hgstrike⟩ :=
    normalizeRecord_ok_some_parts hrow
  rcases h with h | h | h | ⟨q, h, hq⟩ | h | ⟨q, h, hq⟩
  · rw [h] at hiv
    simp only [pyFloatD, Except.ok.injEq] at hiv
    rw [← hiv] at hgiv
    simp [gtZero] at hgiv
  · rw [h] at hiv
    simp [pyFloatD] at hiv
  · rw [h] at hiv
    simp only [pyFloatD, Except.ok.injEq] at hiv
    rw [← hiv] at hgiv
    simp [gtZero] at hgiv
  · rw [h] at hiv
    simp only [pyFloatD, Except.ok.injEq] at hiv
    rw [← hiv] at hgiv
    simp only [gtZero, decide_eq_true_eq] at hgiv
    linarith
  · rw [h] at hstrike
    simp only [pyFloatD, Except.ok.injEq] at hstrike
    rw [← hstrike] at hgstrike
    simp [gtZero] at hgstrike
  · rw [h] at hstrike
    simp only [pyFloatD, Except.ok.injEq] at hstrike
    rw [← hstrike] at hgstrike
    simp only [gtZero, decide_eq_true_eq] at hgstrike
    linarith

/-- C8 witness: a zero implied volatility is rejected at a concrete record
and row. -/
theorem claim8_witness :
    normalizeRecord 30 86400 1 .call recBadIv ≠ .ok (some rowC1e1) :=
  (claim8_theorem 30 86400 1 .call recBadIv
    (Or.inr (Or.inr (Or.inr (Or.inl ⟨0, rfl, le_refl 0⟩))))).1 rowC1e1

/-- C2 (amended): an absent `openInterest` behaves exactly like the value
`0` (so it is not a rejection reason); a NaN `volume` or `bid` degrades to
the default `0`; but a raising conversion (`.error`) aborts the remainder
of the side's records (rows already accepted are, at the loop level,
retained), a filtered record (`.ok none`) is skipped alone, and a NaN or
non-numeric `openInterest` raises rather than degrading. -/
theorem claim2_amended_theorem (maxDays : ℤ) (expiryUTC ttm : ℚ) (side : Side)
    (r : RawRecord) (rest : List RawRecord) :
    (r.openInterest = .missing →
      normalizeRecord maxDays expiryUTC ttm side r =
        normalizeRecord maxDays expiryUTC ttm side
          { r with openInterest := .num 0 }) ∧
    (r.volume = .nan →
      normalizeRecord maxDays expiryUTC ttm side r =
        normalizeRecord maxDays expiryUTC ttm side { r with volume := .num 0 }) ∧
    (r.bid = .nan →
      normalizeRecord maxDays expiryUTC ttm side r =
        normalizeRecord maxDays expiryUTC ttm side { r with bid := .num 0 }) ∧
    (normalizeRecord maxDays expiryUTC ttm side r = .error () →
      procSide maxDays expiryUTC ttm side (r :: rest) = ([], true)) ∧
    (normalizeRecord maxDays expiryUTC ttm side r = .ok none →
      procSide maxDays expiryUTC ttm side (r :: rest) =
        procSide maxDays expiryUTC ttm side rest) ∧
    ((r.openInterest = .nan ∨ r.openInterest = .bad) →
      normalizeRecord maxDays expiryUTC ttm side r = .error ()) := by
  refine ⟨?_, ?_, ?_, ?_, ?_, ?_⟩
  · intro h
    unfold normalizeRecord
    rw [h]
    norm_num [pyIntD, pyTrunc]
  · intro h
    unfold normalizeRecord
    rw [h]
    norm_num [pyNotnaInt, pyTrunc]
  · intro h
    unfold normalizeRecord
    rw [h]
    norm_num [pyNotnaFloat]
  · intro h
    simp [procSide, h]
  · intro h
    simp [procSide, h]
  · intro h
    unfold normalizeRecord
    rcases h with h | h <;> rw [h] <;>
      cases hiv : pyFloatD r.impliedVolatility <;> simp [pyIntD]

/-- C2 witness: the amended behaviors at concrete records. -/
theorem claim2_witness :
    (normalizeRecord 30 86400 1 .call recMissingOI =
      normalizeRecord 30 86400 1 .call
        { recMissingOI with openInterest := .num 0 }) ∧
    procSide 30 86400 1 .call (recNanOI :: [recStd]) = ([], true) ∧
    normalizeRecord 30 86400 1 .call recNanOI = .error () :=
  ⟨(claim2_amended_theorem 30 86400 1 .call recMissingOI [recStd]).1 rfl,
   (claim2_amended_theorem 30 86400 1 .call recNanOI [recStd]).2.2.2.1
     (by decide),
   (claim2_amended_theorem 30 86400 1 .call recNanOI []).2.2.2.2.2
     (Or.inl rfl)⟩

/-- C2 counterexample: a NaN `openInterest` raises (it is not defaulted to
`0`), and the raised exception also discards the perfectly valid record
that follows it in the same expiration — refuting "degrades only that
field … without aborting the rest of the expiration". -/
theorem claim2_counterexample :
    normalizeRecord 30 86400 1 .call recNanOI = .error () ∧
    procSide 30 86400 1 .call [recNanOI, recStd] = ([], true) ∧
    normalizeRecord 30 86400 1 .call recStd = .ok (some rowC1e1) := by decide

/-! ### Loop structure of the fetch loop -/

theorem procExpiries_cons (now : ℚ) (maxDays : ℤ) (P : Provider)
    (e : ℚ) (rest : List ℚ) :
    procExpiries now maxDays P (e :: rest) =
      if decide (ttmOf now e ≤ 0) || decide ((maxDays : ℚ) < ttmOf now e) then
        procExpiries now maxDays P rest
      else
        match P.fetch e with
        | none => ([], true)
        | some chain =>
          let pc := procSide maxDays e (ttmOf now e) .call chain.1
          if pc.2 then (pc.1, true)
          else
            let pp := procSide maxDays e (ttmOf now e) .put chain.2
            if pp.2 then (pc.1 ++ pp.1, true)
            else
              let pr := procExpiries now maxDays P rest
              (pc.1 ++ pp.1 ++ pr.1, pr.2) := rfl

theorem procExpiries_append (now : ℚ) (maxDays : ℤ) (P : Provider)
    (l1 l2 : List ℚ) :
    procExpiries now maxDays P (l1 ++ l2) =
      if (procExpiries now maxDays P l1).2 then procExpiries now maxDays P l1
      else ((procExpiries now maxDays P l1).1 ++ (procExpiries now maxDays P l2).1,
            (procExpiries now maxDays P l2).2) := by
  induction l1 with
  | nil => simp [procExpiries]
  | cons e rest ih =>
    rw [List.cons_append, procExpiries_cons, procExpiries_cons]
    by_cases hg :
        (decide (ttmOf now e ≤ 0) || decide ((maxDays : ℚ) < ttmOf now e)) = true
    · simp only [hg, if_true]
      exact ih
    · simp only [Bool.not_eq_true] at hg
      simp only [hg, Bool.false_eq_true, if_false]
      cases hf : P.fetch e with
      | none => simp
      | some chain =>
        simp only
        by_cases hc : (procSide maxDays e (ttmOf now e) Side.call chain.1).2 = true
        · simp [hc]
        · simp only [Bool.not_eq_true] at hc
          simp only [hc, Bool.false_eq_true, if_false]
          by_cases hp : (procSide maxDays e (ttmOf now e) Side.put chain.2).2 = true
          · simp [hp]
          · simp only [Bool.not_eq_true] at hp
            simp only [hp, Bool.false_eq_true, if_false]
            rw [ih]
            by_cases hr : (procExpiries now maxDays P rest).2 = true
            · simp [hr]
            · simp only [Bool.not_eq_true] at hr
              simp [hr, List.append_assoc]

/-- C1 (amended part): when the chain fetch raises on a valid expiration
`e`, the rows of the expirations processed before `e` are retained, and
neither `e` nor ANY later expiration contributes anything. -/
theorem claim1_amended_theorem (now : ℚ) (maxDays : ℤ) (P : Provider)
    (es rest : List ℚ) (e : ℚ)
    (hok : (procExpiries now maxDays P es).2 = false)
    (hvalid : validExp now maxDays e = true)
    (hfail : P.fetch e = none) :
    procExpiries now maxDays P (es ++ e :: rest) =
      ((procExpiries now maxDays P es).1, true) := by
  rw [procExpiries_append, hok]
  simp only [Bool.false_eq_true, if_false]
  have he : procExpiries now maxDays P (e :: rest) = ([], true) := by
    unfold procExpiries
    simp only [validExp, Bool.and_eq_true, decide_eq_true_eq] at hvalid
    rw [if_neg, hfail]
    simp only [Bool.or_eq_true, decide_eq_true_eq, not_or, not_le, not_lt]
    exact ⟨hvalid.1, hvalid.2⟩
  rw [he]
  simp

/-- C1 witness: a concrete three-expiration provider whose second fetch
fails; the first expiration's rows survive, everything later is dropped. -/
theorem claim1_witness :
    procExpiries 0 30 provC1 ([86400] ++ (86400 * 2) :: [86400 * 3]) =
      ((procExpiries 0 30 provC1 [86400]).1, true) :=
  claim1_amended_theorem 0 30 provC1 [86400] [86400 * 3] (86400 * 2)
    (by decide) (by decide) (by decide)

/-- C1 counterexample: with `provC1` (second fetch raises), the third
expiration is selected and its record is perfectly valid, yet no row of it
reaches the output — refuting "every later selected expiration is still
fetched and processed". -/
theorem claim1_counterexample :
    assembleRows 0 30 3 provC1 = [rowC1e1] ∧
    (86400 * 3 : ℚ) ∈ selectExpiries 0 30 3 provC1.expiries ∧
    normalizeRecord 30 (86400 * 3) 3 .call recStd = .ok (some rowC1e3) ∧
    rowC1e3 ∉ assembleRows 0 30 3 provC1 := by decide

/-- C3 counterexample: a run whose single output row carries
`ttmDays = round(0.001, 2) = 0`, refuting strict positivity of the emitted
value. -/
theorem claim3_counterexample :
    assembleRows 0 30 3 provC3 = [rowC3] ∧ rowC3.ttmDays = 0 := by decide

/-- C3 (amended): every emitted row's `ttmDays` (the 2-decimal rounding of
a pre-rounding value in `(0, maxDays]`) lies in `[0, maxDays]`; it can be
exactly `0`. -/
theorem claim3_amended_theorem (now : ℚ) (maxDays : ℤ) (n : ℕ) (P : Provider) :
    ∀ row ∈ assembleRows now maxDays n P,
      0 ≤ row.ttmDays ∧ row.ttmDays ≤ (maxDays : ℚ) := by
  intro row hrow
  exact procExpiries_ttm _ row hrow

/-- C3 witness: the amended bounds at the concrete run of `provC3`. -/
theorem claim3_witness :
    0 ≤ rowC3.ttmDays ∧ rowC3.ttmDays ≤ ((30 : ℤ) : ℚ) :=
  claim3_amended_theorem 0 30 3 provC3 rowC3 (by decide)

/-! ### Expiration selection -/

theorem selectLoop_eq (valid : ℚ → Bool) (n : ℕ) :
    ∀ (l acc : List ℚ), acc.length < n →
      selectLoop valid n acc l =
        acc.reverse ++ (l.filter valid).take (n - acc.length) := by
  intro l
  induction l with
  | nil => intro acc h; simp [selectLoop]
  | cons e rest ih =>
    intro acc h
    unfold selectLoop
    split
    · rename_i hv
      split
      · rename_i hlen
        simp only [List.length_cons] at hlen
        have hn : n - acc.length = 1 := by omega
        simp [List.filter_cons, hv, hn]
      · rename_i hlen
        simp only [List.length_cons, not_le] at hlen
        rw [ih (e :: acc) (by simp; omega)]
        have hn : n - acc.length = (n - (acc.length + 1)) + 1 := by omega
        simp [List.filter_cons, hv, hn, List.take_succ_cons]
    · rename_i hv
      rw [ih acc h]
      simp [List.filter_cons, hv]

/-- C6: `targetCount` is clamped into `[3, 8]` (10 ↦ 8, 1 ↦ 3), and the
selection scans at most `2 × n` candidates in provider order, keeps exactly
the ones with `0 < ttmDays ≤ maxDays`, and stops at `n` of them; hence at
most `n` are returned and each is valid (fewer than `n` is possible and is
not an error). -/
theorem claim6_theorem (now : ℚ) (maxDays : ℤ) (n : ℕ) (expiries : List ℚ)
    (h : 0 < n) :
    clampExpiries 10 = 8 ∧ clampExpiries 1 = 3 ∧
    selectExpiries now maxDays n expiries =
      ((expiries.take (2 * n)).filter (validExp now maxDays)).take n ∧
    (selectExpiries now maxDays n expiries).length ≤ n ∧
    (∀ e ∈ selectExpiries now maxDays n expiries,
      validExp now maxDays e = true) := by
  have hc : selectExpiries now maxDays n expiries =
      ((expiries.take (2 * n)).filter (validExp now maxDays)).take n := by
    unfold selectExpiries
    rw [selectLoop_eq (validExp now maxDays) n (expiries.take (2 * n)) [] h]
    simp
  refine ⟨by decide, by decide, hc, ?_, ?_⟩
  · rw [hc]
    exact le_trans (List.length_take_le _ _) (le_refl n)
  · intro e he
    rw [hc] at he
    have h1 : e ∈ (expiries.take (2 * n)).filter (validExp now maxDays) :=
      (List.take_sublist _ _).subset he
    exact (List.mem_filter.mp h1).2

/-! ### Sorting, distinct values and Python `min(·, key=·)` -/

theorem mem_insertAsc {x y : ℚ} {l : List ℚ} :
    y ∈ insertAsc x l ↔ y = x ∨ y ∈ l := by
  induction l with
  | nil => simp [insertAsc]
  | cons z zs ih =>
    unfold insertAsc
    split
    · simp [List.mem_cons]
    · simp only [List.mem_cons, ih]
      tauto

theorem pairwise_insertAsc {x : ℚ} {l : List ℚ}
    (h : l.Pairwise (· ≤ ·)) : (insertAsc x l).Pairwise (· ≤ ·) := by
  induction l with
  | nil => simp [insertAsc]
  | cons z zs ih =>
    unfold insertAsc
    split
    · rename_i hxz
      constructor
      · intro b hb
        rcases List.mem_cons.mp hb with rfl | hb
        · exact hxz
        · exact le_trans hxz (List.rel_of_pairwise_cons h hb)
      · exact h
    · rename_i hxz
      push_neg at hxz
      constructor
      · intro b hb
        rcases mem_insertAsc.mp hb with rfl | hb
        · exact le_of_lt hxz
        · exact List.rel_of_pairwise_cons h hb
      · exact ih h.of_cons

theorem mem_sortAsc {y : ℚ} {l : List ℚ} : y ∈ sortAsc l ↔ y ∈ l := by
  induction l with
  | nil => simp [sortAsc]
  | cons x xs ih =>
    show y ∈ insertAsc x (sortAsc xs) ↔ _
    rw [mem_insertAsc, ih]
    simp [List.mem_cons]

theorem sortAsc_pairwise (l : List ℚ) : (sortAsc l).Pairwise (· ≤ ·) := by
  induction l with
  | nil => simp [sortAsc]
  | cons x xs ih => exact pairwise_insertAsc ih

theorem mem_dedupFirstAux {x : ℚ} :
    ∀ {l seen : List ℚ}, x ∈ dedupFirstAux seen l ↔ x ∈ l ∧ x ∉ seen := by
  intro l
  induction l with
  | nil => intro seen; simp [dedupFirstAux]
  | cons y ys ih =>
    intro seen
    unfold dedupFirstAux
    split
    · rename_i hy
      rw [ih]
      simp only [List.mem_cons]
      constructor
      · rintro ⟨h1, h2⟩
        exact ⟨Or.inr h1, h2⟩
      · rintro ⟨h1, h2⟩
        rcases h1 with rfl | h1
        · exact absurd hy h2
        · exact ⟨h1, h2⟩
    · rename_i hy
      simp only [List.mem_cons, ih]
      constructor
      · rintro (rfl | ⟨h1, h2⟩)
        · exact ⟨Or.inl rfl, hy⟩
        · exact ⟨Or.inr h1, fun hc => h2 (Or.inr hc)⟩
      · rintro ⟨h1, h2⟩
        by_cases hxy : x = y
        · exact Or.inl hxy
        · rcases h1 with rfl | h1
          · exact Or.inl rfl
          · refine Or.inr ⟨h1, ?_⟩
            rintro (rfl | hc)
            · exact hxy rfl
            · exact h2 hc

theorem mem_dedupFirst {x : ℚ} {l : List ℚ} : x ∈ dedupFirst l ↔ x ∈ l := by
  unfold dedupFirst
  rw [mem_dedupFirstAux]
  simp

theorem minByKey_mem (key : ℚ → ℚ) :
    ∀ (l : List ℚ) (b : ℚ), minByKey key b l ∈ b :: l := by
  intro l
  induction l with
  | nil => intro b; simp [minByKey]
  | cons x rest ih =>
    intro b
    unfold minByKey
    split
    · have h := ih x
      simp only [List.mem_cons] at h ⊢
      tauto
    · have h := ih b
      simp only [List.mem_cons] at h ⊢
      tauto

theorem minByKey_le (key : ℚ → ℚ) :
    ∀ (l : List ℚ) (b : ℚ), ∀ x ∈ b :: l, key (minByKey key b l) ≤ key x := by
  intro l
  induction l with
  | nil =>
    intro b x hx
    rcases List.mem_cons.mp hx with rfl | hx
    · simp [minByKey]
    · cases hx
  | cons y rest ih =>
    intro b x hx
    unfold minByKey
    split
    · rename_i hlt
      rcases List.mem_cons.mp hx with rfl | hx
      · exact le_of_lt (lt_of_le_of_lt (ih y y (List.mem_cons_self _ _)) hlt)
      · exact ih y x hx
    · rename_i hlt
      push_neg at hlt
      rcases List.mem_cons.mp hx with rfl | hx
      · exact ih x x (List.mem_cons_self _ _)
      · rcases List.mem_cons.mp hx with rfl | hx
        · exact le_trans (ih b b (List.mem_cons_self _ _)) hlt
        · exact ih b x (List.mem_cons_of_mem _ hx)

theorem minByKey_lt_of_ne (key : ℚ → ℚ) :
    ∀ (l : List ℚ) (b : ℚ), minByKey key b l ≠ b →
      key (minByKey key b l) < key b := by
  intro l
  induction l with
  | nil => intro b h; simp [minByKey] at h
  | cons x rest ih =>
    intro b h
    unfold minByKey at h ⊢
    by_cases hk : key x < key b
    · rw [if_pos hk]
      exact lt_of_le_of_lt (minByKey_le key rest x x (List.mem_cons_self _ _))
        hk
    · rw [if_neg hk] at h ⊢
      exact ih b h

theorem minByKey_tie (key : ℚ → ℚ) :
    ∀ (l : List ℚ) (b : ℚ), (b :: l).Pairwise (· ≤ ·) →
      ∀ x ∈ b :: l, key x = key (minByKey key b l) → minByKey key b l ≤ x := by
  intro l
  induction l with
  | nil =>
    intro b _ x hx _
    rcases List.mem_cons.mp hx with rfl | hx
    · simp [minByKey]
    · cases hx
  | cons y rest ih =>
    intro b hs x hx htie
    unfold minByKey at htie ⊢
    by_cases hk : key y < key b
    · rw [if_pos hk] at htie ⊢
      rcases List.mem_cons.mp hx with rfl | hx
      · exfalso
        have h1 : key (minByKey key y rest) ≤ key y :=
          minByKey_le key rest y y (List.mem_cons_self _ _)
        rw [← htie] at h1
        exact absurd (lt_of_le_of_lt h1 hk) (lt_irrefl _)
      · exact ih y hs.of_cons x hx htie
    · rw [if_neg hk] at htie ⊢
      push_neg at hk
      have hpair : (b :: rest).Pairwise (· ≤ ·) := by
        constructor
        · intro z hz
          exact List.rel_of_pairwise_cons hs (List.mem_cons_of_mem _ hz)
        · exact hs.of_cons.of_cons
      rcases List.mem_cons.mp hx with rfl | hx
      · exact ih x hpair x (List.mem_cons_self _ _) htie
      · rcases List.mem_cons.mp hx with rfl | hx
        · by_cases hmb : minByKey key b rest = b
          · rw [hmb]
            exact List.rel_of_pairwise_cons hs (List.mem_cons_self _ _)
          · exfalso
            have h1 := minByKey_lt_of_ne key rest b hmb
            rw [← htie] at h1
            exact absurd (lt_of_lt_of_le h1 hk) (lt_irrefl _)
        · exact ih b hpair x (List.mem_cons_of_mem _ hx) htie

/-- C6 witness: the characterization at a concrete scan (second candidate
out of window, third kept). -/
theorem claim6_witness :
    clampExpiries 10 = 8 ∧ clampExpiries 1 = 3 ∧
    selectExpiries 0 30 5 [86400, 86400 * 40, 86400 * 2] =
      (([86400, 86400 * 40, 86400 * 2].take (2 * 5)).filter
        (validExp 0 30)).take 5 ∧
    (selectExpiries 0 30 5 [86400, 86400 * 40, 86400 * 2]).length ≤ 5 ∧
    (∀ e ∈ selectExpiries 0 30 5 [86400, 86400 * 40, 86400 * 2],
      validExp 0 30 e = true) :=
  claim6_theorem 0 30 5 [86400, 86400 * 40, 86400 * 2] (by decide)

/-! ### Nearest expiration, ATM strike and metrics reductions -/

theorem nearestExpiry_mem {rows : List CanonRow} (h : rows ≠ []) :
    nearestExpiry rows ∈ rows.map (·.expiryUTC) := by
  obtain ⟨r0, rest, rfl⟩ := List.exists_cons_of_ne_nil h
  cases hl : sortAsc (dedupFirst ((r0 :: rest).map (·.expiryUTC))) with
  | nil =>
    have hmem : r0.expiryUTC ∈
        sortAsc (dedupFirst ((r0 :: rest).map (·.expiryUTC))) := by
      rw [mem_sortAsc, mem_dedupFirst]
      simp
    rw [hl] at hmem
    cases hmem
  | cons a as =>
    have ha : a ∈ sortAsc (dedupFirst ((r0 :: rest).map (·.expiryUTC))) := by
      rw [hl]
      exact List.mem_cons_self _ _
    rw [mem_sortAsc, mem_dedupFirst] at ha
    unfold nearestExpiry
    rw [hl]
    simpa using ha

theorem nearestExpiry_le {rows : List CanonRow} :
    ∀ r ∈ rows, nearestExpiry rows ≤ r.expiryUTC := by
  intro r hr
  have hmem : r.expiryUTC ∈ sortAsc (dedupFirst (rows.map (·.expiryUTC))) := by
    rw [mem_sortAsc, mem_dedupFirst]
    exact List.mem_map_of_mem _ hr
  cases hl : sortAsc (dedupFirst (rows.map (·.expiryUTC))) with
  | nil => rw [hl] at hmem; cases hmem
  | cons a as =>
    have hp : (a :: as).Pairwise (· ≤ ·) := by
      rw [← hl]
      exact sortAsc_pairwise _
    unfold nearestExpiry
    rw [hl]
    simp only [List.headD_cons]
    rw [hl] at hmem
    rcases List.mem_cons.mp hmem with heq | hmem
    · rw [heq]
    · exact List.rel_of_pairwise_cons hp hmem

theorem expiryRowsOf_ne_nil {rows : List CanonRow} (h : rows ≠ []) :
    expiryRowsOf rows (nearestExpiry rows) ≠ [] := by
  obtain ⟨r1, hr1, hexp⟩ := List.mem_map.mp (nearestExpiry_mem h)
  have hmem : r1 ∈ expiryRowsOf rows (nearestExpiry rows) := by
    unfold expiryRowsOf
    rw [List.mem_filter]
    exact ⟨hr1, by simp [hexp]⟩
  exact List.ne_nil_of_mem hmem

theorem atmStrikeOf_eq_some (sp : ℚ) {er : List CanonRow} (h : er ≠ []) :
    ∃ s, atmStrikeOf sp er = some s := by
  obtain ⟨r0, rest, rfl⟩ := List.exists_cons_of_ne_nil h
  cases hl : sortAsc (dedupFirst ((r0 :: rest).map (·.strike))) with
  | nil =>
    have hmem : r0.strike ∈
        sortAsc (dedupFirst ((r0 :: rest).map (·.strike))) := by
      rw [mem_sortAsc, mem_dedupFirst]
      simp
    rw [hl] at hmem
    cases hmem
  | cons a as =>
    refine ⟨minByKey (fun x => |x - sp|) a as, ?_⟩
    unfold atmStrikeOf
    rw [hl]

theorem atmStrikeOf_mem {sp s : ℚ} {er : List CanonRow}
    (h : atmStrikeOf sp er = some s) : s ∈ er.map (·.strike) := by
  unfold atmStrikeOf at h
  cases hl : sortAsc (dedupFirst (er.map (·.strike))) with
  | nil => rw [hl] at h; cases h
  | cons a as =>
    rw [hl] at h
    simp only [Option.some.injEq] at h
    subst h
    have hmem := minByKey_mem (fun x => |x - sp|) as a
    rw [← hl] at hmem
    rwa [mem_sortAsc, mem_dedupFirst] at hmem

theorem findRow_eq_some {er : List CanonRow} {s : ℚ} {sd : Side}
    (h : ∃ r ∈ er, r.strike = s ∧ r.side = sd) :
    ∃ c, findRow er s sd = some c := by
  obtain ⟨r, hr, h1, h2⟩ := h
  have hsome :
      (er.find? fun r => decide (r.strike = s) && decide (r.side = sd)).isSome := by
    rw [List.find?_isSome]
    exact ⟨r, hr, by simp [h1, h2]⟩
  exact Option.isSome_iff_exists.mp hsome

theorem computeMetrics_pos {sp : ℚ} {rows : List CanonRow}
    (hsp : sp ≠ 0) (hrows : rows ≠ []) :
    computeMetrics (some sp) rows =
      match atmStrikeOf sp (expiryRowsOf rows (nearestExpiry rows)) with
      | none => ⟨none, pcrOf (expiryRowsOf rows (nearestExpiry rows)), none⟩
      | some s =>
        ⟨atmIvFrom (findRow (expiryRowsOf rows (nearestExpiry rows)) s .call)
           (findRow (expiryRowsOf rows (nearestExpiry rows)) s .put) s,
         pcrOf (expiryRowsOf rows (nearestExpiry rows)),
         impliedMoveOf sp (nearestExpiry rows)
           (findRow (expiryRowsOf rows (nearestExpiry rows)) s .call)
           (findRow (expiryRowsOf rows (nearestExpiry rows)) s .put)⟩ := by
  unfold computeMetrics
  dsimp only
  rw [if_neg hsp, if_neg hrows]

theorem computeMetrics_pcr {sp : ℚ} {rows : List CanonRow}
    (hsp : sp ≠ 0) (hrows : rows ≠ []) :
    (computeMetrics (some sp) rows).pcr =
      pcrOf (expiryRowsOf rows (nearestExpiry rows)) := by
  rw [computeMetrics_pos hsp hrows]
  cases atmStrikeOf sp (expiryRowsOf rows (nearestExpiry rows)) <;> rfl

/-- C4 (amended): the ATM strike is a strike of the nearest expiration's
rows minimizing `abs(strike - spot)`, with ties broken toward the
NUMERICALLY SMALLEST strike (the code sorts the distinct strikes before
taking the minimum), not toward first occurrence. -/
theorem claim4_amended_theorem (spot : ℚ) (er : List CanonRow) (s : ℚ)
    (h : atmStrikeOf spot er = some s) :
    s ∈ er.map (·.strike) ∧
    (∀ t ∈ er.map (·.strike), |s - spot| ≤ |t - spot|) ∧
    (∀ t ∈ er.map (·.strike), |t - spot| = |s - spot| → s ≤ t) := by
  refine ⟨atmStrikeOf_mem h, ?_, ?_⟩
  · intro t ht
    unfold atmStrikeOf at h
    cases hl : sortAsc (dedupFirst (er.map (·.strike))) with
    | nil => rw [hl] at h; cases h
    | cons a as =>
      rw [hl] at h
      simp only [Option.some.injEq] at h
      subst h
      have htmem : t ∈ a :: as := by
        rw [← hl, mem_sortAsc, mem_dedupFirst]
        exact ht
      exact minByKey_le (fun x => |x - spot|) as a t htmem
  · intro t ht htie
    unfold atmStrikeOf at h
    cases hl : sortAsc (dedupFirst (er.map (·.strike))) with
    | nil => rw [hl] at h; cases h
    | cons a as =>
      rw [hl] at h
      simp only [Option.some.injEq] at h
      subst h
      have htmem : t ∈ a :: as := by
        rw [← hl, mem_sortAsc, mem_dedupFirst]
        exact ht
      have hp : (a :: as).Pairwise (· ≤ ·) := by
        rw [← hl]
        exact sortAsc_pairwise _
      exact minByKey_tie (fun x => |x - spot|) as a hp t htmem htie

/-- C4 witness: the amended properties at the claim's example
(`strikes = [95, 100, 105]`, `spot = 101` → ATM strike 100). -/
theorem claim4_witness :
    (100 : ℚ) ∈ ([sampleRow 95 .call, sampleRow 100 .call,
      sampleRow 105 .call].map (·.strike)) ∧
    |(100 : ℚ) - 101| ≤ |(95 : ℚ) - 101| := by
  have h := claim4_amended_theorem 101
    [sampleRow 95 .call, sampleRow 100 .call, sampleRow 105 .call] 100
    (by decide)
  exact ⟨h.1, h.2.1 95 (by decide)⟩

/-- C4 counterexample: with rows whose strikes occur in the order
`[105, 95]` and `spot = 100` both strikes are equidistant; the spec's
first-occurrence tie-break picks 105, the code picks 95. -/
theorem claim4_counterexample :
    atmStrikeOf 100 [sampleRow 105 .call, sampleRow 95 .put] = some 95 ∧
    atmStrikeSpec 100 [sampleRow 105 .call, sampleRow 95 .put] = some 105 ∧
    (95 : ℚ) ≠ 105 := by decide

/-- C7: for the nearest expiration present in the data (it is the minimum
`expiryUTC` over the rows), a positive summed call volume yields the
rounded put/call quotient tagged `"expiry"`, and a zero summed call volume
yields `None` (no division is attempted). -/
theorem claim7_theorem (sp : ℚ) (rows : List CanonRow)
    (hsp : sp ≠ 0) (hrows : rows ≠ []) :
    (0 < callVolOf (expiryRowsOf rows (nearestExpiry rows)) →
      (computeMetrics (some sp) rows).pcr =
        some { value := rnd 2
                 ((putVolOf (expiryRowsOf rows (nearestExpiry rows)) : ℚ) /
                  (callVolOf (expiryRowsOf rows (nearestExpiry rows)) : ℚ))
               window := "expiry" }) ∧
    (callVolOf (expiryRowsOf rows (nearestExpiry rows)) = 0 →
      (computeMetrics (some sp) rows).pcr = none) ∧
    (∀ r ∈ rows, nearestExpiry rows ≤ r.expiryUTC) ∧
    nearestExpiry rows ∈ rows.map (·.expiryUTC) := by
  refine ⟨?_, ?_, nearestExpiry_le, nearestExpiry_mem hrows⟩
  · intro hcv
    rw [computeMetrics_pcr hsp hrows]
    unfold pcrOf
    rw [if_pos hcv]
  · intro hcv
    rw [computeMetrics_pcr hsp hrows]
    unfold pcrOf
    rw [if_neg (by rw [hcv]; exact lt_irrefl 0)]

/-- C7 witness: put-only volume yields a `None` statistic; one call and
one put of volume 1 yield a quotient of 1. -/
theorem claim7_witness :
    (computeMetrics (some 100) [sampleRow 100 Side.put]).pcr = none ∧
    (computeMetrics (some 100)
      [sampleRow 100 Side.call, sampleRow 100 Side.put]).pcr =
        some { value := 1, window := "expiry" } := by
  constructor
  · exact (claim7_theorem 100 [sampleRow 100 .put] (by norm_num)
      (by decide)).2.1 (by decide)
  · have h := (claim7_theorem 100 [sampleRow 100 .call, sampleRow 100 .put]
      (by norm_num) (by decide)).1 (by decide)
    rw [h]
    decide

/-- C9: `atm_iv` is computed from the call/put rows found at the ATM
strike: both present → average of their `iv`; one present → that `iv`;
output `{percent: iv×100 rounded to 1, decimal: iv rounded to 4, strike}`. -/
theorem claim9_theorem (sp : ℚ) (rows : List CanonRow) (s : ℚ)
    (hsp : sp ≠ 0) (hrows : rows ≠ [])
    (hs : atmStrikeOf sp (expiryRowsOf rows (nearestExpiry rows)) = some s) :
    ((computeMetrics (some sp) rows).atmIv =
      atmIvFrom (findRow (expiryRowsOf rows (nearestExpiry rows)) s .call)
        (findRow (expiryRowsOf rows (nearestExpiry rows)) s .put) s) ∧
    (∀ (c p : CanonRow) (t : ℚ),
      atmIvFrom (some c) (some p) t =
        some { percent := rnd 1 ((c.iv + p.iv) / 2 * 100)
               decimal := rnd 4 ((c.iv + p.iv) / 2)
               strike := t }) ∧
    (∀ (c : CanonRow) (t : ℚ),
      atmIvFrom (some c) none t =
        some { percent := rnd 1 (c.iv * 100), decimal := rnd 4 c.iv,
               strike := t }) ∧
    (∀ (p : CanonRow) (t : ℚ),
      atmIvFrom none (some p) t =
        some { percent := rnd 1 (p.iv * 100), decimal := rnd 4 p.iv,
               strike := t }) := by
  refine ⟨?_, fun c p t => rfl, fun c t => rfl, fun p t => rfl⟩
  rw [computeMetrics_pos hsp hrows, hs]

/-- C9 witness: the spec's worked example — spot 100, ATM call iv 0.20 and
put iv 0.22 at strike 100 give `{percent: 21.0, decimal: 0.21, strike: 100}`. -/
theorem claim9_witness :
    (computeMetrics (some 100) [rowC9call, rowC9put]).atmIv =
      some { percent := 21, decimal := 21/100, strike := 100 } := by
  have h := claim9_theorem 100 [rowC9call, rowC9put] 100 (by norm_num)
    (by decide) (by decide)
  rw [h.1]
  decide

/-- C10 (implicit): with a positive spot and a nonempty row set, `atm_iv`
is never `None`: the ATM strike is drawn from the strikes actually present
in the nearest expiration's rows, so at least one of the call/put lookups
succeeds and the "neither present" branch is unreachable. -/
theorem claim10_theorem (sp : ℚ) (rows : List CanonRow)
    (hsp : 0 < sp) (hrows : rows ≠ []) :
    (computeMetrics (some sp) rows).atmIv ≠ none := by
  have hsp2 : sp ≠ 0 := ne_of_gt hsp
  obtain ⟨s, hs⟩ := atmStrikeOf_eq_some sp (expiryRowsOf_ne_nil hrows)
  obtain ⟨r2, hr2, hstr⟩ := List.mem_map.mp (atmStrikeOf_mem hs)
  rw [computeMetrics_pos hsp2 hrows, hs]
  show atmIvFrom _ _ s ≠ none
  cases hside : r2.side with
  | call =>
    obtain ⟨c, hc⟩ := findRow_eq_some ⟨r2, hr2, hstr, hside⟩
    rw [hc]
    cases findRow (expiryRowsOf rows (nearestExpiry rows)) s .put <;>
      simp [atmIvFrom]
  | put =>
    obtain ⟨p, hp⟩ := findRow_eq_some ⟨r2, hr2, hstr, hside⟩
    rw [hp]
    cases findRow (expiryRowsOf rows (nearestExpiry rows)) s .call <;>
      simp [atmIvFrom]

/-- C10 witness: a single call row at strike 100, spot 100. -/
theorem claim10_witness :
    (computeMetrics (some 100) [sampleRow 100 Side.call]).atmIv ≠ none :=
  claim10_theorem 100 [sampleRow 100 .call] (by norm_num) (by decide)

/-- C5 (amended): every invocation exits 0 and prints exactly one JSON
document, whose keys always include `spot`, `fetched_at` and `rows`; but
only the normal path prints all six top-level keys — the missing-symbol
and outer-exception paths print a three-field document without the metric
keys. -/
theorem claim5_amended_theorem (inp : RunInput) :
    (runBridge inp).1 = 0 ∧
    (runBridge inp).2.length = 1 ∧
    (∀ d ∈ (runBridge inp).2,
      "spot" ∈ docKeys d ∧ "fetched_at" ∈ docKeys d ∧ "rows" ∈ docKeys d) ∧
    (∀ (spot : Option ℚ) (now : ℚ) (maxDays n : ℤ) (P : Provider),
      inp = .normal spot now maxDays n P →
      ∀ d ∈ (runBridge inp).2,
        docKeys d = ["spot", "fetched_at", "rows", "atm_iv",
                     "put_call_volume_ratio", "implied_move"]) := by
  cases inp with
  | missingSymbol =>
    refine ⟨rfl, rfl, ?_, ?_⟩
    · intro d hd
      simp only [runBridge, List.mem_singleton] at hd
      subst hd
      refine ⟨?_, ?_, ?_⟩ <;> simp [docKeys]
    · intro spot now maxDays n P hcontra
      cases hcontra
  | crash =>
    refine ⟨rfl, rfl, ?_, ?_⟩
    · intro d hd
      simp only [runBridge, List.mem_singleton] at hd
      subst hd
      refine ⟨?_, ?_, ?_⟩ <;> simp [docKeys]
    · intro spot now maxDays n P hcontra
      cases hcontra
  | normal spot now maxDays n P =>
    refine ⟨rfl, rfl, ?_, ?_⟩
    · intro d hd
      simp only [runBridge, List.mem_singleton] at hd
      subst hd
      refine ⟨?_, ?_, ?_⟩ <;> simp [docKeys]
    · rintro s2 n2 m2 k2 P2 heq d hd
      simp only [runBridge, List.mem_singleton] at hd
      subst hd
      rfl

/-- C5 witness: a normal run prints exit code 0 and the six-key document. -/
theorem claim5_witness :
    (runBridge (RunInput.normal (some 100) 0 30 5 provC1)).1 = 0 ∧
    docKeys ((runBridge (RunInput.normal (some 100) 0 30 5 provC1)).2.headD
        { spot := none, rows := [], metrics := none }) =
      ["spot", "fetched_at", "rows", "atm_iv", "put_call_volume_ratio",
       "implied_move"] := by
  have h := claim5_amended_theorem (RunInput.normal (some 100) 0 30 5 provC1)
  refine ⟨h.1, ?_⟩
  refine h.2.2.2 (some 100) 0 30 5 provC1 rfl _ ?_
  simp [runBridge]

/-- C5 counterexample: the missing-symbol invocation exits 0 with one
document, but that document has no `atm_iv` key (nor the other two metric
keys) — refuting "all six top-level fields present on every invocation". -/
theorem claim5_counterexample :
    (runBridge .missingSymbol).1 = 0 ∧
    (runBridge .missingSymbol).2 =
      [{ spot := none, rows := [], metrics := none }] ∧
    "atm_iv" ∉ docKeys { spot := none, rows := [], metrics := none } := by
  refine ⟨rfl, rfl, ?_⟩
  simp [docKeys]

end OptionsBridge
